import Mathlib

/-!
Verification of the jsonflow pipeline execution core.

The Python source is shallowly embedded: JSON values become the inductive
`JVal`, Python dicts become ordered association lists (`Record`), Python
exceptions become `Except PyErr`, and each `process` method becomes a Lean
function with the same control flow as the source.  Where the repository
ships only tests or callers of a component (the collection operators
`JsonSplitter`/`JsonAggregator` and the `MultiThreadExecutor`), the
component is modelled from the specification, as marked in the doc
comments.
-/

set_option maxHeartbeats 1000000

/-- A JSON value: null, boolean, number, string, array or object.
Objects keep their fields in insertion order, as Python dicts do. -/
inductive JVal where
  | null : JVal
  | bool : Bool → JVal
  | num : Int → JVal
  | str : String → JVal
  | arr : List JVal → JVal
  | obj : List (String × JVal) → JVal
deriving Repr

/-- A record: the contents of a Python dict with string keys, in insertion
order (the payload of `JVal.obj`). -/
abbrev Record := List (String × JVal)

/-- `d[k]` read: the value at the first occurrence of key `k`
(Python dicts have at most one occurrence). -/
def dictLookup (d : Record) (k : String) : Option JVal :=
  match d with
  | [] => none
  | (k', v) :: rest => if k' = k then some v else dictLookup rest k

/-- `d[k] = v` write, Python dict semantics: if `k` is present its value is
replaced in place (keeping its position), otherwise the pair is appended. -/
def dictSet (d : Record) (k : String) (v : JVal) : Record :=
  match d with
  | [] => [(k, v)]
  | (k', v') :: rest =>
    if k' = k then (k', v) :: rest else (k', v') :: dictSet rest k v

/-- `d.update(e)`: set every entry of `e` on `d`, in `e`'s order. -/
def dictUpdate (d e : Record) : Record :=
  e.foldl (fun acc kv => dictSet acc kv.1 kv.2) d

/-- A Python exception, as observed by a caller of the pipeline core:
either the `TypeError` raised by an item assignment on a non-dict value,
or an exception raised inside an operator, identified by its message. -/
inductive PyErr where
  | typeError : PyErr
  | exc : String → PyErr
deriving Repr

/-- An operator as the pipeline sees it: `op.process` takes the current
working value (a record or a batch, i.e. any `JVal`) and either returns a
new working value or raises. -/
abbrev Op := JVal → Except PyErr JVal

/-- `result[field] = value` on an arbitrary Python value: item assignment
succeeds on a dict and raises `TypeError` on a list (or any other
JSON-typed value, none of which accepts a string index). -/
def pySetItem (v : JVal) (k : String) (x : JVal) : Except PyErr JVal :=
  match v with
  | .obj d => .ok (.obj (dictSet d k x))
  | _ => .error .typeError

namespace Pipeline

/-- The passthrough snapshot taken by `Pipeline.process` before any
operator runs: each configured field present in the input, with its value,
in configuration order (the iteration order of the Python dict
`passthrough_values`). -/
def passthroughOf (fields : List String) (jsonData : Record) :
    List (String × JVal) :=
  fields.filterMap fun f => (dictLookup jsonData f).map fun v => (f, v)

/-- The operator loop of `Pipeline.process`: `result = json_data; for op in
self.operators: result = op.process(result)`.  A raised exception aborts
the loop. -/
def runOps (ops : List Op) (v : JVal) : Except PyErr JVal :=
  match ops with
  | [] => .ok v
  | op :: rest =>
    match op v with
    | .ok v' => runOps rest v'
    | .error e => .error e

/-- The restoration loop of `Pipeline.process`: `for field, value in
passthrough_values.items(): result[field] = value`. -/
def restore (pv : List (String × JVal)) (v : JVal) : Except PyErr JVal :=
  match pv with
  | [] => .ok v
  | (f, x) :: rest =>
    match pySetItem v f x with
    | .ok v' => restore rest v'
    | .error e => .error e

/-- `Pipeline.process` from `jsonflow/core/pipeline.py`: snapshot the
configured passthrough fields present in the input dict, run every
operator in order on the single working value, then write each snapshot
value back onto whatever the last operator returned. -/
def process (passthroughFields : List String) (ops : List Op)
    (jsonData : Record) : Except PyErr JVal :=
  let pv := passthroughOf passthroughFields jsonData
  match runOps ops (.obj jsonData) with
  | .ok result => restore pv result
  | .error e => .error e

end Pipeline

namespace JsonSplitter

/-- Modelled from the spec: `JsonSplitter` is absent from `src/` (only
`jsonflow/tests/test_collection_ops.py` exercises it).  Per the spec, a
splitter applied to a record whose `split_field` is a list of length N
produces exactly N records, each a copy of the parent with that field
replaced by the corresponding element; `keep_original = false` drops the
parent fields not named in `output_key_map`, and `output_key_map` renames
the mapped keys on each child.  A record whose named field is absent or
not a list yields the single-element batch holding the record unchanged. -/
def splitRecord (splitField : String) (outputKeyMap : List (String × String))
    (keepOriginal : Bool) (d : Record) : List Record :=
  match dictLookup d splitField with
  | some (.arr items) =>
      items.map fun item =>
        let replaced := dictSet d splitField item
        let kept := if keepOriginal then replaced
          else replaced.filter fun kv =>
            (outputKeyMap.lookup kv.1).isSome
        kept.map fun kv =>
          (match outputKeyMap.lookup kv.1 with
           | some k' => k'
           | none => kv.1, kv.2)
  | _ => [d]

/-- Modelled from the spec: the splitter as a pipeline operator.  On a
record it fans out into the batch given by `splitRecord`; a non-record
value has no `split_field`, so it is passed through as a single-element
batch. -/
def processOp (splitField : String) (outputKeyMap : List (String × String))
    (keepOriginal : Bool) : Op := fun v =>
  match v with
  | .obj d => .ok (.arr ((splitRecord splitField outputKeyMap keepOriginal d).map .obj))
  | other => .ok (.arr [other])

end JsonSplitter

namespace JsonAggregator

/-- The aggregation strategy of `JsonAggregator`: collect the batch into a
list, or merge the batch key-wise. -/
inductive Strategy where
  | list : Strategy
  | merge : Strategy

/-- Modelled from the spec: the `merge` strategy folds the filtered batch
into one record, setting every key of every record in batch order, so a
later record wins any key collision.  The spec defines merging over
records only; a non-record batch element contributes nothing. -/
def mergeAll (batch : List JVal) : Record :=
  batch.foldl
    (fun acc item =>
      match item with
      | .obj d => dictUpdate acc d
      | _ => acc)
    []

/-- Modelled from the spec: `JsonAggregator` is absent from `src/` (only
its tests exist).  Applied to an empty batch it yields the empty record;
applied to a single record (not a batch) it is a no-op.  Otherwise the
batch is filtered by the optional `condition`, then strategy `list` wraps
the filtered batch as `{aggregate_field: [...]}` (or returns it bare when
no field is named) and strategy `merge` takes the key-wise last-write-wins
union. -/
def processOp (aggregateField : Option String) (strategy : Strategy)
    (condition : Option (JVal → Bool)) : Op := fun v =>
  match v with
  | .arr batch =>
      if batch.isEmpty then .ok (.obj [])
      else
        let filtered := match condition with
          | some c => batch.filter c
          | none => batch
        match strategy with
        | .list =>
            match aggregateField with
            | some f => .ok (.obj [(f, .arr filtered)])
            | none => .ok (.arr filtered)
        | .merge => .ok (.obj (mergeAll filtered))
  | single => .ok single

end JsonAggregator

/-- One chat message handed to the model collaborator: a `{role, content}`
pair. -/
structure Message where
  role : String
  content : JVal
deriving Repr

namespace ModelInvoker

/-- The message list built by `ModelInvoker.process`: the optional system
prompt followed by the user message holding the prompt field's value. -/
def buildMessages (systemPrompt : Option JVal) (prompt : JVal) : List Message :=
  (match systemPrompt with
   | some sp => [⟨"system", sp⟩]
   | none => []) ++ [⟨"user", prompt⟩]

/-- `ModelInvoker.process` from `jsonflow/operators/model/model_invoker.py`:
if the input dict is empty (falsy) or lacks the prompt field, return it
unchanged; otherwise copy it, call the model collaborator (`call_llm`,
which raises on API failure), store the response text under the response
field of the copy, and return the copy. -/
def process (promptField responseField : String) (systemPrompt : Option JVal)
    (callLLM : List Message → Except PyErr String) (jsonData : Record) :
    Except PyErr JVal :=
  if jsonData.isEmpty ∨ (dictLookup jsonData promptField).isNone then
    .ok (.obj jsonData)
  else
    let result := jsonData
    let prompt := (dictLookup result promptField).getD .null
    match callLLM (buildMessages systemPrompt prompt) with
    | .ok response => .ok (.obj (dictSet result responseField (.str response)))
    | .error e => .error e

end ModelInvoker

namespace MultimodalInvoker

/-- `MultimodalInvoker._invoke_multimodal_model` from
`jsonflow/operators/model/multimodal_invoker.py`: parse the message data
when it is a string (`json.loads`, a library collaborator modelled as a
parameter), invoke the OpenAI-compatible collaborator, and catch **every**
exception, turning it into the text `"Error: "` followed by the
exception's message. -/
def invokeMultimodalModel (jsonLoads : String → Except PyErr JVal)
    (invokeOpenAI : JVal → Except PyErr String) (messageData : JVal) : String :=
  let parsed : Except PyErr JVal :=
    match messageData with
    | .str s => jsonLoads s
    | v => .ok v
  let invoked : Except PyErr String :=
    match parsed with
    | .ok message => invokeOpenAI message
    | .error e => .error e
  match invoked with
  | .ok text => text
  | .error .typeError => "Error: TypeError"
  | .error (.exc msg) => "Error: " ++ msg

/-- `MultimodalInvoker.process`: if the input dict is empty or lacks the
message field, return it unchanged; otherwise copy it, run the (total,
exception-catching) multimodal invocation, and store the resulting text
under the response field. -/
def process (messageField responseField : String)
    (jsonLoads : String → Except PyErr JVal)
    (invokeOpenAI : JVal → Except PyErr String) (jsonData : Record) :
    Except PyErr JVal :=
  if jsonData.isEmpty ∨ (dictLookup jsonData messageField).isNone then
    .ok (.obj jsonData)
  else
    let result := jsonData
    let messageData := (dictLookup result messageField).getD .null
    let response := invokeMultimodalModel jsonLoads invokeOpenAI messageData
    .ok (.obj (dictSet result responseField (.str response)))

end MultimodalInvoker

/-! ## A heap of record objects

Python records are mutable objects with identity.  To state that an
operator does not mutate its caller's record, the record heap is made
explicit: references are numbers, a heap maps each reference to a record
and knows the next fresh reference.  `dict.copy()` allocates a fresh
reference; `d[k] = v` writes through a reference. -/

structure Heap where
  store : Nat → Record
  next : Nat

/-- Allocate a fresh record object. -/
def Heap.alloc (h : Heap) (d : Record) : Heap × Nat :=
  (⟨fun q => if q = h.next then d else h.store q, h.next + 1⟩, h.next)

/-- Overwrite the record behind reference `r` (in-place mutation). -/
def Heap.setAt (h : Heap) (r : Nat) (d : Record) : Heap :=
  ⟨fun q => if q = r then d else h.store q, h.next⟩

/-- A per-record operator in heap form: given the heap and a reference to
the input record, return the updated heap and either a reference to the
output record or a raised exception. -/
abbrev OpH := Heap → Nat → Heap × Except PyErr Nat

/-- The frame contract of a by-value operator: it never writes through a
pre-existing reference, only allocates, and the reference it returns is
its input reference or a fresh one. -/
def OpFrame (op : OpH) : Prop :=
  ∀ h r,
    (∀ q, q < h.next → ((op h r).1).store q = h.store q) ∧
    h.next ≤ ((op h r).1).next ∧
    (∀ r', (op h r).2 = .ok r' → r' = r ∨ h.next ≤ r')

namespace ModelInvoker

/-- `ModelInvoker.process` in heap form: the soft no-op returns the input
reference itself; otherwise `json_data.copy()` allocates a fresh object,
the model is called, and the response is written onto the fresh object
only.  The copy's content is the input's content `d`, so the reads and
the write through the copy are expressed on `d`. -/
def processH (promptField responseField : String) (systemPrompt : Option JVal)
    (callLLM : List Message → Except PyErr String) : OpH := fun h r =>
  let d := h.store r
  if d.isEmpty ∨ (dictLookup d promptField).isNone then (h, .ok r)
  else
    let ar := h.alloc d
    let h1 := ar.1
    let r1 := ar.2
    let prompt := (dictLookup d promptField).getD .null
    match callLLM (buildMessages systemPrompt prompt) with
    | .ok response =>
        (h1.setAt r1 (dictSet d responseField (.str response)), .ok r1)
    | .error e => (h1, .error e)

end ModelInvoker

namespace MultimodalInvoker

/-- `MultimodalInvoker.process` in heap form: soft no-op returns the input
reference; otherwise a fresh copy receives the (exception-free) response
text. -/
def processH (messageField responseField : String)
    (jsonLoads : String → Except PyErr JVal)
    (invokeOpenAI : JVal → Except PyErr String) : OpH := fun h r =>
  let d := h.store r
  if d.isEmpty ∨ (dictLookup d messageField).isNone then (h, .ok r)
  else
    let ar := h.alloc d
    let h1 := ar.1
    let r1 := ar.2
    let messageData := (dictLookup d messageField).getD .null
    let response := invokeMultimodalModel jsonLoads invokeOpenAI messageData
    (h1.setAt r1 (dictSet d responseField (.str response)), .ok r1)

end MultimodalInvoker

namespace Pipeline

/-- The operator loop of `Pipeline.process`, threading the heap: each
operator receives the reference the previous one returned. -/
def runOpsH (ops : List OpH) (h : Heap) (r : Nat) : Heap × Except PyErr Nat :=
  match ops with
  | [] => (h, .ok r)
  | op :: rest =>
    match op h r with
    | (h', .ok r') => runOpsH rest h' r'
    | (h', .error e) => (h', .error e)

/-- The restoration loop of `Pipeline.process` in heap form: each
`result[field] = value` writes through the result reference. -/
def restoreH (pv : List (String × JVal)) (h : Heap) (r : Nat) : Heap :=
  pv.foldl (fun hh fv => hh.setAt r (dictSet (hh.store r) fv.1 fv.2)) h

/-- `Pipeline.process` in heap form, for the per-record-operator case in
which every working value is a record object: snapshot the passthrough
fields from the input object, run the operators, then write the snapshot
back through the reference the last operator returned. -/
def processH (passthroughFields : List String) (ops : List OpH)
    (h : Heap) (r : Nat) : Heap × Except PyErr Nat :=
  let pv := passthroughOf passthroughFields (h.store r)
  match runOpsH ops h r with
  | (h', .ok r') => (restoreH pv h' r', .ok r')
  | (h', .error e) => (h', .error e)

end Pipeline

namespace JsonStructureExtractor

/-- A Python `set` of strings, modelled as an insertion-ordered
duplicate-free list (`set.add` appends when absent).  CPython's set
iteration order is hash-dependent and unspecified; insertion order is the
determinization chosen here. -/
def setAdd (s : List String) (x : String) : List String :=
  if x ∈ s then s else s ++ [x]

/-- `type(item).__name__` for a JSON-typed value. -/
def typeName : JVal → String
  | .null => "NoneType"
  | .bool _ => "bool"
  | .num _ => "int"
  | .str _ => "str"
  | .arr _ => "list"
  | .obj _ => "dict"

/-- The sampling loop of `_get_value_types` over the first five array
elements: a dict element adds `"object_array"` and breaks out of the loop;
a list element adds `"array_array"`; any other element adds
`"<type>_array"`. -/
def sampleTypes : List JVal → List String → List String
  | [], acc => acc
  | x :: rest, acc =>
    match x with
    | .obj _ => setAdd acc "object_array"
    | .arr _ => sampleTypes rest (setAdd acc "array_array")
    | other => sampleTypes rest (setAdd acc (typeName other ++ "_array"))

/-- `JsonStructureExtractor._get_value_types`: the set of type names for a
value (`JVal.num` embeds the integer case of the Python number types). -/
def getValueTypes : JVal → List String
  | .null => ["null"]
  | .bool _ => ["boolean"]
  | .num _ => ["integer"]
  | .str _ => ["string"]
  | .arr xs => sampleTypes (xs.take 5) ["array"]
  | .obj _ => ["object"]

/-- `JsonStructureExtractor._extract_structure`: walk the entries of a
dict in order, recording for each key its dotted path (and optionally its
type set), recursing into dict values and into the first element of a
list of dicts (path suffixed by the sample marker), accumulating into the
`structure` dict. -/
def extractStructure (extractTypes extractNested : Bool) :
    List (String × JVal) → String → Record → Record
  | [], _, acc => acc
  | (k, v) :: rest, pfx, acc =>
    let path := if pfx = "" then k else pfx ++ "." ++ k
    let keyInfo : Record :=
      [("path", .str path)] ++
        (if extractTypes then [("types", .arr ((getValueTypes v).map .str))] else [])
    let acc1 := dictSet acc path (.obj keyInfo)
    let acc2 :=
      if extractNested then
        match v with
        | .obj d => dictUpdate acc1 (extractStructure extractTypes extractNested d path [])
        | .arr (.obj d :: _) =>
            dictUpdate acc1 (extractStructure extractTypes extractNested d (path ++ "[*]") [])
        | _ => acc1
      else acc1
    extractStructure extractTypes extractNested rest pfx acc2

/-- `JsonStructureExtractor.process` in heap form: an empty (falsy) input
yields a fresh singleton dict (the splat of the empty input contributes
nothing); otherwise the structure is computed from the input and written
onto a fresh copy (`include_original`) or a fresh singleton dict.  The
input object is only read. -/
def processH (extractTypes extractNested : Bool) (outputField : String)
    (includeOriginal : Bool) : OpH := fun h r =>
  let d := h.store r
  if d.isEmpty then
    let ar := h.alloc [(outputField, .obj [])]
    (ar.1, .ok ar.2)
  else
    let st := extractStructure extractTypes extractNested d "" []
    if includeOriginal then
      let ar := h.alloc (dictSet d outputField (.obj st))
      (ar.1, .ok ar.2)
    else
      let ar := h.alloc [(outputField, .obj st)]
      (ar.1, .ok ar.2)

end JsonStructureExtractor

namespace MultiThreadExecutor

/-- Modelled from the spec: `MultiThreadExecutor` is absent from `src/`
(only callers such as `examples/concurrent_processing.py` use it).  Per
the spec, `execute_all` submits each record of the input list to a bounded
worker pool; each invocation is equivalent to `pipeline.process` on that
record, at most `W` invocations run concurrently, and each result is
stored at its record's input index.  A pool state holds the indices not
yet started, the indices currently running, and the slot for each
result. -/
structure ExecState where
  pending : List Nat
  running : List Nat
  results : List (Option (Except PyErr JVal))

/-- Modelled from the spec: one scheduling event of the worker pool.
`start` picks the next submitted index when a worker is free (fewer than
`W` invocations running); `fin` completes any running invocation, in any
order, writing `pipeline.process` of its record into its slot. -/
inductive ExecStep (fields : List String) (ops : List Op)
    (inputs : List Record) (w : Nat) : ExecState → ExecState → Prop where
  | start (s : ExecState) (i : Nat) (p : List Nat)
      (hp : s.pending = i :: p) (hw : s.running.length < w) :
      ExecStep fields ops inputs w s ⟨p, i :: s.running, s.results⟩
  | fin (s : ExecState) (i : Nat) (hi : i ∈ s.running) :
      ExecStep fields ops inputs w s
        ⟨s.pending, s.running.erase i,
         s.results.set i (some (Pipeline.process fields ops (inputs.getD i [])))⟩

/-- The pool state when `execute_all` begins: every index submitted, no
worker busy, every result slot empty. -/
def initState (inputs : List Record) : ExecState :=
  ⟨List.range inputs.length, [], List.replicate inputs.length none⟩

/-- The states a run of `execute_all` can pass through: reflexive
transitive closure of the scheduling events from the start state. -/
inductive Reach (fields : List String) (ops : List Op)
    (inputs : List Record) (w : Nat) : ExecState → Prop where
  | refl : Reach fields ops inputs w (initState inputs)
  | tail (s t : ExecState) :
      Reach fields ops inputs w s → ExecStep fields ops inputs w s t →
      Reach fields ops inputs w t

end MultiThreadExecutor

/-! ## Theorems -/

theorem dictLookup_dictSet_self (d : Record) (k : String) (v : JVal) :
    dictLookup (dictSet d k v) k = some v := by
  induction d with
  | nil => simp [dictSet, dictLookup]
  | cons hd tl ih =>
      obtain ⟨k', v'⟩ := hd
      by_cases h : k' = k <;> simp [dictSet, dictLookup, h, ih]

theorem dictLookup_dictSet_ne (d : Record) (k k' : String) (v : JVal)
    (h : k' ≠ k) : dictLookup (dictSet d k v) k' = dictLookup d k' := by
  induction d with
  | nil => simp [dictSet, dictLookup, Ne.symm h]
  | cons hd tl ih =>
      obtain ⟨k'', v''⟩ := hd
      by_cases hk : k'' = k
      · subst hk
        simp [dictSet, dictLookup, Ne.symm h]
      · simp [dictSet, dictLookup, hk, ih]

/-- Writing back the value a key already holds leaves the dict unchanged
(same entries in the same order). -/
theorem dictSet_self_of_lookup (d : Record) (k : String) (v : JVal)
    (h : dictLookup d k = some v) : dictSet d k v = d := by
  induction d with
  | nil => simp [dictLookup] at h
  | cons hd tl ih =>
      obtain ⟨k', v'⟩ := hd
      by_cases hk : k' = k
      · subst hk
        simp [dictLookup] at h
        simp [dictSet, h]
      · simp [dictLookup, hk] at h
        simp [dictSet, hk, ih h]

theorem dictLookup_eq_none_of_not_mem (d : Record) (k : String)
    (h : k ∉ d.map Prod.fst) : dictLookup d k = none := by
  induction d with
  | nil => rfl
  | cons hd tl ih =>
      obtain ⟨k', v'⟩ := hd
      simp only [List.map_cons, List.mem_cons] at h
      push_neg at h
      simp [dictLookup, Ne.symm h.1, ih h.2]

theorem dictLookup_dictUpdate (d : Record) (e : Record) (k : String)
    (he : (e.map Prod.fst).Nodup) :
    dictLookup (dictUpdate d e) k =
      (match dictLookup e k with
       | some v => some v
       | none => dictLookup d k) := by
  induction e generalizing d with
  | nil => simp [dictUpdate, dictLookup]
  | cons hd tl ih =>
      obtain ⟨k', v'⟩ := hd
      simp only [List.map_cons, List.nodup_cons] at he
      have step : dictUpdate d ((k', v') :: tl) = dictUpdate (dictSet d k' v') tl := rfl
      rw [step, ih _ he.2]
      by_cases hk : k' = k
      · subst hk
        have hnone : dictLookup tl k' = none :=
          dictLookup_eq_none_of_not_mem tl k' he.1
        simp [dictLookup, hnone, dictLookup_dictSet_self]
      · simp only [dictLookup, hk, if_false]
        cases h : dictLookup tl k
        · simp [dictLookup_dictSet_ne _ _ _ _ (Ne.symm hk)]
        · simp

/-- Claim C3: for a record whose split field holds a list of length N,
the splitter yields exactly N children; the i-th child is the parent with
the split field replaced by the i-th element, restricted (when
`keep_original` is false) to the fields named in `output_key_map`, and
with the mapped keys renamed. -/
theorem JsonSplitter.split_fanout (d : Record) (splitField : String)
    (items : List JVal) (outputKeyMap : List (String × String))
    (keepOriginal : Bool)
    (h : dictLookup d splitField = some (.arr items)) :
    (splitRecord splitField outputKeyMap keepOriginal d).length = items.length ∧
    ∀ (i : Nat) (item : JVal), items[i]? = some item →
      (splitRecord splitField outputKeyMap keepOriginal d)[i]? =
        some (((if keepOriginal then dictSet d splitField item
                else (dictSet d splitField item).filter fun kv =>
                  (outputKeyMap.lookup kv.1).isSome).map
               fun kv =>
                 (match outputKeyMap.lookup kv.1 with
                  | some k' => k'
                  | none => kv.1, kv.2))) := by
  unfold splitRecord
  rw [h]
  refine ⟨List.length_map _ _, ?_⟩
  intro i item hi
  rw [List.getElem?_map, hi]
  rfl

/-- Witness for C3: the spec's own example, `split_field = "items"` on
`{"id": "test-1", "items": ["item1", "item2", "item3"]}`. -/
theorem JsonSplitter.split_fanout_witness :
    dictLookup [("id", .str "test-1"),
        ("items", .arr [.str "item1", .str "item2", .str "item3"])] "items" =
      some (.arr [.str "item1", .str "item2", .str "item3"]) ∧
    (JsonSplitter.splitRecord "items" [] true
        [("id", .str "test-1"),
         ("items", .arr [.str "item1", .str "item2", .str "item3"])]).length = 3 ∧
    (JsonSplitter.splitRecord "items" [] true
        [("id", .str "test-1"),
         ("items", .arr [.str "item1", .str "item2", .str "item3"])])[1]? =
      some [("id", .str "test-1"), ("items", .str "item2")] := by
  have h := JsonSplitter.split_fanout
    [("id", .str "test-1"),
     ("items", .arr [.str "item1", .str "item2", .str "item3"])]
    "items" [.str "item1", .str "item2", .str "item3"] [] true rfl
  refine ⟨rfl, h.1, ?_⟩
  have h2 := h.2 1 (.str "item2") rfl
  simpa using h2

/-- Claim C4: a splitter whose field is absent or not a list is a no-op
fan-out, returning the single-element batch holding the input record
unchanged. -/
theorem JsonSplitter.split_noop (d : Record) (splitField : String)
    (outputKeyMap : List (String × String)) (keepOriginal : Bool)
    (h : ∀ xs, dictLookup d splitField ≠ some (.arr xs)) :
    JsonSplitter.processOp splitField outputKeyMap keepOriginal (.obj d) =
      .ok (.arr [.obj d]) ∧
    JsonSplitter.splitRecord splitField outputKeyMap keepOriginal d = [d] := by
  have hs : JsonSplitter.splitRecord splitField outputKeyMap keepOriginal d = [d] := by
    unfold JsonSplitter.splitRecord
    cases hl : dictLookup d splitField with
    | none => rfl
    | some v =>
        cases v with
        | arr xs => exact absurd hl (h xs)
        | null => rfl
        | bool b => rfl
        | num n => rfl
        | str s => rfl
        | obj o => rfl
  refine ⟨?_, hs⟩
  have hred : JsonSplitter.processOp splitField outputKeyMap keepOriginal (.obj d) =
      .ok (.arr ((JsonSplitter.splitRecord splitField outputKeyMap keepOriginal d).map .obj)) := rfl
  rw [hred, hs]
  rfl

/-- Witness for C4: the spec's own example,
`Splitter(split_field='x').process({"id": 1, "y": 2})`. -/
theorem JsonSplitter.split_noop_witness :
    JsonSplitter.processOp "x" [] true (.obj [("id", .num 1), ("y", .num 2)]) =
      .ok (.arr [.obj [("id", .num 1), ("y", .num 2)]]) := by
  have h := JsonSplitter.split_noop [("id", .num 1), ("y", .num 2)] "x" [] true
    (by intro xs hx; simp [dictLookup] at hx)
  exact h.1

/-- Claim C6: an aggregator applied to an empty batch returns the empty
record, for every strategy, field and condition configuration; applied to
a single record (not a batch) it is a no-op. -/
theorem JsonAggregator.empty_batch_and_single_record
    (aggregateField : Option String) (strategy : JsonAggregator.Strategy)
    (condition : Option (JVal → Bool)) :
    JsonAggregator.processOp aggregateField strategy condition (.arr []) =
      .ok (.obj []) ∧
    ∀ d : Record,
      JsonAggregator.processOp aggregateField strategy condition (.obj d) =
        .ok (.obj d) := by
  constructor
  · rfl
  · intro d
    rfl

theorem findSome?_append {α β : Type} (f : α → Option β) (l1 l2 : List α) :
    (l1 ++ l2).findSome? f =
      (match l1.findSome? f with
       | some b => some b
       | none => l2.findSome? f) := by
  induction l1 with
  | nil => simp [List.findSome?]
  | cons a l ih =>
      simp only [List.cons_append, List.findSome?]
      cases f a <;> simp [ih]

theorem mergeFold_lookup (rs : List Record) (acc : Record) (k : String)
    (hnd : ∀ d ∈ rs, (d.map Prod.fst).Nodup) :
    dictLookup (rs.foldl (fun a d => dictUpdate a d) acc) k =
      (match rs.reverse.findSome? (fun d => dictLookup d k) with
       | some v => some v
       | none => dictLookup acc k) := by
  induction rs generalizing acc with
  | nil => simp [List.findSome?]
  | cons d rs ih =>
      simp only [List.foldl_cons, List.reverse_cons]
      rw [ih _ fun d' hd' => hnd d' (List.mem_cons_of_mem _ hd'),
        findSome?_append]
      cases hfs : rs.reverse.findSome? fun d' => dictLookup d' k with
      | some v => rfl
      | none =>
          rw [dictLookup_dictUpdate _ _ _ (hnd d (List.mem_cons_self _ _))]
          cases hdk : dictLookup d k <;> simp [List.findSome?, hdk]

/-- Claim C5: the aggregator's `merge` strategy returns the single record
that is the key-wise union of the condition-filtered batch, a key
colliding across records taking the value of the record occurring later in
the batch (last-write-wins fold in batch order).  Each batch element,
being a Python dict, has duplicate-free keys. -/
theorem JsonAggregator.merge_last_write_wins (batch : List Record)
    (cond : JVal → Bool) (aggregateField : Option String)
    (hnd : ∀ d ∈ batch, (d.map Prod.fst).Nodup) :
    ∃ m : Record,
      JsonAggregator.processOp aggregateField .merge (some cond)
        (.arr (batch.map .obj)) = .ok (.obj m) ∧
      ∀ k, dictLookup m k =
        (batch.filter fun d => cond (.obj d)).reverse.findSome? fun d =>
          dictLookup d k := by
  have hfm : (batch.map JVal.obj).filter cond =
      (batch.filter fun d => cond (.obj d)).map JVal.obj := by
    rw [List.filter_map]
    rfl
  have hmerge : JsonAggregator.mergeAll ((batch.map JVal.obj).filter cond) =
      (batch.filter fun d => cond (.obj d)).foldl
        (fun a d => dictUpdate a d) [] := by
    rw [hfm]
    unfold JsonAggregator.mergeAll
    rw [List.foldl_map]
  have hlook : ∀ k,
      dictLookup (JsonAggregator.mergeAll ((batch.map JVal.obj).filter cond)) k =
        (batch.filter fun d => cond (.obj d)).reverse.findSome? fun d =>
          dictLookup d k := by
    intro k
    rw [hmerge, mergeFold_lookup _ _ _
      fun d hd => hnd d (List.mem_of_mem_filter hd)]
    cases hfs : (batch.filter fun d => cond (.obj d)).reverse.findSome?
        fun d => dictLookup d k <;> simp [dictLookup]
  cases hb : batch with
  | nil => exact ⟨[], rfl, by intro k; simp [List.findSome?, dictLookup]⟩
  | cons d0 rest =>
      refine ⟨JsonAggregator.mergeAll ((batch.map JVal.obj).filter cond),
        ?_, by rw [← hb]; exact hlook⟩
      rw [← hb]
      have hne : (batch.map JVal.obj).isEmpty = false := by
        rw [hb]
        rfl
      unfold JsonAggregator.processOp
      simp only [hne]
      rfl

/-- Witness for C5: the spec's own merge example. -/
theorem JsonAggregator.merge_last_write_wins_witness :
    JsonAggregator.processOp none .merge (some fun _ => true)
      (.arr [.obj [("id", .str "1"), ("name", .str "t1")],
             .obj [("count", .num 5), ("active", .bool true)],
             .obj [("tags", .arr [.str "tag1", .str "tag2"])]]) =
      .ok (.obj [("id", .str "1"), ("name", .str "t1"), ("count", .num 5),
                 ("active", .bool true),
                 ("tags", .arr [.str "tag1", .str "tag2"])]) ∧
    dictLookup [("id", .str "1"), ("name", .str "t1"), ("count", .num 5),
        ("active", .bool true), ("tags", .arr [.str "tag1", .str "tag2"])]
      "count" =
      ([[("id", .str "1"), ("name", .str "t1")],
        [("count", .num 5), ("active", .bool true)],
        [("tags", .arr [.str "tag1", .str "tag2"])]].filter fun d =>
          (fun _ => true : JVal → Bool) (.obj d)).reverse.findSome? (fun d =>
        dictLookup d "count") := by
  obtain ⟨m, hm, hk⟩ := JsonAggregator.merge_last_write_wins
    [[("id", .str "1"), ("name", .str "t1")],
     [("count", .num 5), ("active", .bool true)],
     [("tags", .arr [.str "tag1", .str "tag2"])]]
    (fun _ => true) none
    (by
      intro d hd
      simp only [List.mem_cons, List.not_mem_nil, or_false] at hd
      rcases hd with h | h | h <;> subst h <;> simp)
  have hcomp : JsonAggregator.processOp none .merge (some fun _ => true)
      (.arr (List.map JVal.obj
        [[("id", .str "1"), ("name", .str "t1")],
         [("count", .num 5), ("active", .bool true)],
         [("tags", .arr [.str "tag1", .str "tag2"])]])) =
      .ok (.obj [("id", .str "1"), ("name", .str "t1"), ("count", .num 5),
                 ("active", .bool true),
                 ("tags", .arr [.str "tag1", .str "tag2"])]) := rfl
  have hmv : m = [("id", .str "1"), ("name", .str "t1"), ("count", .num 5),
      ("active", .bool true), ("tags", .arr [.str "tag1", .str "tag2"])] := by
    have h2 := hm.symm.trans hcomp
    exact (JVal.obj.inj (Except.ok.inj h2))
  subst hmv
  exact ⟨hm, hk "count"⟩

theorem Pipeline.runOps_append (xs ys : List Op) (v : JVal) :
    Pipeline.runOps (xs ++ ys) v =
      (match Pipeline.runOps xs v with
       | .ok w => Pipeline.runOps ys w
       | .error e => .error e) := by
  induction xs generalizing v with
  | nil => rfl
  | cons op rest ih =>
      simp only [List.cons_append, Pipeline.runOps]
      cases op v with
      | ok w => exact ih w
      | error e => rfl

/-- Claim C7: an exception raised by any operator propagates out of
`Pipeline.process` unchanged — the remaining operators do not run, no
passthrough restoration happens, and no value is returned for that
input. -/
theorem Pipeline.process_propagates_exception (passthroughFields : List String)
    (pre post : List Op) (op : Op) (jsonData : Record) (v : JVal) (e : PyErr)
    (hpre : Pipeline.runOps pre (.obj jsonData) = .ok v)
    (hop : op v = .error e) :
    Pipeline.process passthroughFields (pre ++ op :: post) jsonData =
      .error e := by
  unfold Pipeline.process
  rw [Pipeline.runOps_append, hpre]
  simp only [Pipeline.runOps, hop]

/-- Witness for C7: a pipeline whose first operator raises; the exception
message surfaces unchanged even though another operator follows and a
passthrough field is configured. -/
theorem Pipeline.process_propagates_exception_witness :
    Pipeline.process ["id"]
      ([] ++ (fun _ => .error (.exc "boom")) :: [fun w => .ok w])
      [("id", .str "x")] = .error (.exc "boom") :=
  Pipeline.process_propagates_exception ["id"] [] [fun w => .ok w]
    (fun _ => .error (.exc "boom")) [("id", .str "x")]
    (.obj [("id", .str "x")]) (.exc "boom") rfl rfl

/-- Claim C1, evaluated at the failing input: with a passthrough field
captured and a fan-out operator in the pipeline, `Pipeline.process` raises
`TypeError` at the restoration loop (string-keyed item assignment on a
list) instead of restoring the field onto each leaf record, contradicting
the repository's own flatten-mode pipeline test. -/
theorem Pipeline.passthrough_fanout_raises_typeError :
    Pipeline.process ["id"] [JsonSplitter.processOp "items" [] true]
      [("id", .str "t1"), ("items", .arr [.str "a", .str "b"])] =
      .error .typeError := rfl

/-- Claim C2, counterexample: with `"id"` configured as a passthrough
field, the nested-mode pipeline `[Splitter, Aggregator]` from the cited
test yields an aggregated record that **contains** `"id"` — restoration is
applied unconditionally to the fan-in output, not skipped. -/
theorem Pipeline.fanin_passthrough_reapplied :
    Pipeline.process ["id"]
      [JsonSplitter.processOp "items" [] true,
       JsonAggregator.processOp (some "processed") .list none]
      [("id", .str "t1"), ("items", .arr [.str "a", .str "b", .str "c"])] =
      .ok (.obj
        [("processed", .arr
          [.obj [("id", .str "t1"), ("items", .str "a")],
           .obj [("id", .str "t1"), ("items", .str "b")],
           .obj [("id", .str "t1"), ("items", .str "c")]]),
         ("id", .str "t1")]) := rfl

/-- Claim C2 as amended: the pipeline re-applies every captured
passthrough field to the final record unconditionally, fan-in or not; in
the cited nested-mode test the aggregated record lacks `"id"` only because
no passthrough fields are configured and the aggregate output itself never
holds `"id"` at top level, while configuring `"id"` as passthrough makes
it present on the very same fan-in output. -/
theorem Pipeline.fanin_restoration_unconditional :
    Pipeline.process []
      [JsonSplitter.processOp "items" [] true,
       JsonAggregator.processOp (some "processed") .list none]
      [("id", .str "t1"), ("items", .arr [.str "a", .str "b", .str "c"])] =
      .ok (.obj
        [("processed", .arr
          [.obj [("id", .str "t1"), ("items", .str "a")],
           .obj [("id", .str "t1"), ("items", .str "b")],
           .obj [("id", .str "t1"), ("items", .str "c")]])]) ∧
    (∃ m : Record,
      Pipeline.process ["id"]
        [JsonSplitter.processOp "items" [] true,
         JsonAggregator.processOp (some "processed") .list none]
        [("id", .str "t1"), ("items", .arr [.str "a", .str "b", .str "c"])] =
        .ok (.obj m) ∧
      dictLookup m "id" = some (.str "t1")) :=
  ⟨rfl,
   ⟨[("processed", .arr
      [.obj [("id", .str "t1"), ("items", .str "a")],
       .obj [("id", .str "t1"), ("items", .str "b")],
       .obj [("id", .str "t1"), ("items", .str "c")]]),
     ("id", .str "t1")], rfl, rfl⟩⟩

/-- Claim C9, counterexample: `MultimodalInvoker` (cited by the claim)
does **not** propagate a transport/API failure: its
`_invoke_multimodal_model` catches every exception and the record comes
back normally, carrying the stringified error in the response field. -/
theorem MultimodalInvoker.api_failure_not_propagated :
    MultimodalInvoker.process "message" "response"
      (fun _ => .error (.exc "unused"))
      (fun _ => .error (.exc "API call failed: boom"))
      [("message", .obj [("role", .str "user")])] =
      .ok (.obj [("message", .obj [("role", .str "user")]),
                 ("response", .str "Error: API call failed: boom")]) := rfl

/-- Claim C9 as amended: a missing required field (or an empty record) is
a soft no-op for both invokers, and a present field yields the input
extended with the response field; a transport/API failure propagates as an
exception from `ModelInvoker`, while `MultimodalInvoker` catches it and
stores an error string in the response field instead. -/
theorem invoker_required_field_convention :
    (∀ (pf rf : String) (sp : Option JVal)
        (call : List Message → Except PyErr String) (d : Record),
        d.isEmpty = true ∨ dictLookup d pf = none →
        ModelInvoker.process pf rf sp call d = .ok (.obj d)) ∧
    (∀ (pf rf : String) (sp : Option JVal)
        (call : List Message → Except PyErr String) (d : Record) (v : JVal)
        (t : String),
        dictLookup d pf = some v →
        call (ModelInvoker.buildMessages sp v) = .ok t →
        ModelInvoker.process pf rf sp call d =
          .ok (.obj (dictSet d rf (.str t)))) ∧
    (∀ (pf rf : String) (sp : Option JVal)
        (call : List Message → Except PyErr String) (d : Record) (v : JVal)
        (e : PyErr),
        dictLookup d pf = some v →
        call (ModelInvoker.buildMessages sp v) = .error e →
        ModelInvoker.process pf rf sp call d = .error e) ∧
    (∀ (mf rf : String) (jl : String → Except PyErr JVal)
        (ivk : JVal → Except PyErr String) (d : Record),
        d.isEmpty = true ∨ dictLookup d mf = none →
        MultimodalInvoker.process mf rf jl ivk d = .ok (.obj d)) ∧
    (∀ (mf rf : String) (jl : String → Except PyErr JVal)
        (ivk : JVal → Except PyErr String) (d : Record) (dm : Record)
        (msg : String),
        dictLookup d mf = some (.obj dm) →
        ivk (.obj dm) = .error (.exc msg) →
        MultimodalInvoker.process mf rf jl ivk d =
          .ok (.obj (dictSet d rf (.str ("Error: " ++ msg))))) := by
  refine ⟨?_, ?_, ?_, ?_, ?_⟩
  · intro pf rf sp call d h
    rcases h with h | h <;> simp [ModelInvoker.process, h]
  · intro pf rf sp call d v t hdl hcall
    have hne : d.isEmpty = false := by
      cases d with
      | nil => simp [dictLookup] at hdl
      | cons hd tl => rfl
    simp [ModelInvoker.process, hne, hdl, hcall]
  · intro pf rf sp call d v e hdl hcall
    have hne : d.isEmpty = false := by
      cases d with
      | nil => simp [dictLookup] at hdl
      | cons hd tl => rfl
    simp [ModelInvoker.process, hne, hdl, hcall]
  · intro mf rf jl ivk d h
    rcases h with h | h <;> simp [MultimodalInvoker.process, h]
  · intro mf rf jl ivk d dm msg hdl hivk
    have hne : d.isEmpty = false := by
      cases d with
      | nil => simp [dictLookup] at hdl
      | cons hd tl => rfl
    simp [MultimodalInvoker.process, MultimodalInvoker.invokeMultimodalModel,
      hne, hdl, hivk]

/-- Witness for the amended C9: each branch of the convention exercised on
a concrete record. -/
theorem invoker_required_field_convention_witness :
    ModelInvoker.process "prompt" "response" none (fun _ => .ok "hi") [] =
      .ok (.obj []) ∧
    ModelInvoker.process "prompt" "response" none (fun _ => .ok "hi")
      [("prompt", .str "q")] =
      .ok (.obj [("prompt", .str "q"), ("response", .str "hi")]) ∧
    ModelInvoker.process "prompt" "response" none
      (fun _ => .error (.exc "API call failed: x")) [("prompt", .str "q")] =
      .error (.exc "API call failed: x") ∧
    MultimodalInvoker.process "message" "response"
      (fun _ => .error (.exc "unused")) (fun _ => .ok "ok") [("k", .null)] =
      .ok (.obj [("k", .null)]) ∧
    MultimodalInvoker.process "message" "response"
      (fun _ => .error (.exc "unused")) (fun _ => .error (.exc "down"))
      [("message", .obj [])] =
      .ok (.obj [("message", .obj []), ("response", .str "Error: down")]) := by
  have h := invoker_required_field_convention
  exact ⟨h.1 "prompt" "response" none (fun _ => .ok "hi") [] (Or.inl rfl),
    h.2.1 "prompt" "response" none (fun _ => .ok "hi") [("prompt", .str "q")]
      (.str "q") "hi" rfl rfl,
    h.2.2.1 "prompt" "response" none (fun _ => .error (.exc "API call failed: x"))
      [("prompt", .str "q")] (.str "q") (.exc "API call failed: x") rfl rfl,
    h.2.2.2.1 "message" "response" (fun _ => .error (.exc "unused"))
      (fun _ => .ok "ok") [("k", .null)] (Or.inr rfl),
    h.2.2.2.2 "message" "response" (fun _ => .error (.exc "unused"))
      (fun _ => .error (.exc "down")) [("message", .obj [])] [] "down" rfl rfl⟩

theorem Heap.alloc_fst_store_lt (h : Heap) (d : Record) (q : Nat)
    (hq : q < h.next) : ((h.alloc d).1).store q = h.store q := by
  have hne : q ≠ h.next := Nat.ne_of_lt hq
  simp [Heap.alloc, hne]

theorem Heap.setAt_store_ne (h : Heap) (r : Nat) (d : Record) (q : Nat)
    (hq : q ≠ r) : ((h.setAt r d)).store q = h.store q := by
  simp [Heap.setAt, hq]

theorem Heap.setAt_store_self (h : Heap) (r : Nat) (d : Record) :
    ((h.setAt r d)).store r = d := by
  simp [Heap.setAt]

theorem modelInvoker_frame (pf rf : String) (sp : Option JVal)
    (call : List Message → Except PyErr String) :
    OpFrame (ModelInvoker.processH pf rf sp call) := by
  intro h r
  simp only [ModelInvoker.processH]
  by_cases hc : ((h.store r).isEmpty ∨ (dictLookup (h.store r) pf).isNone)
  · rw [if_pos hc]
    exact ⟨fun q hq => rfl, le_refl _,
      fun r' hr' => Or.inl (Except.ok.inj hr').symm⟩
  · rw [if_neg hc]
    cases hcall : call (ModelInvoker.buildMessages sp
        ((dictLookup (h.store r) pf).getD JVal.null)) with
    | ok resp =>
        refine ⟨fun q hq => ?_, ?_, fun r' hr' => ?_⟩
        · have hne : q ≠ h.next := Nat.ne_of_lt hq
          simp [Heap.alloc, Heap.setAt, hne]
        · simp [Heap.alloc, Heap.setAt]
        · exact Or.inr (le_of_eq (Except.ok.inj hr'))
    | error e =>
        refine ⟨fun q hq => ?_, ?_, fun r' hr' => ?_⟩
        · exact Heap.alloc_fst_store_lt h _ q hq
        · simp [Heap.alloc]
        · cases hr'

theorem multimodalInvoker_frame (mf rf : String)
    (jl : String → Except PyErr JVal) (ivk : JVal → Except PyErr String) :
    OpFrame (MultimodalInvoker.processH mf rf jl ivk) := by
  intro h r
  simp only [MultimodalInvoker.processH]
  by_cases hc : ((h.store r).isEmpty ∨ (dictLookup (h.store r) mf).isNone)
  · rw [if_pos hc]
    exact ⟨fun q hq => rfl, le_refl _,
      fun r' hr' => Or.inl (Except.ok.inj hr').symm⟩
  · rw [if_neg hc]
    refine ⟨fun q hq => ?_, ?_, fun r' hr' => ?_⟩
    · have hne : q ≠ h.next := Nat.ne_of_lt hq
      simp [Heap.alloc, Heap.setAt, hne]
    · simp [Heap.alloc, Heap.setAt]
    · exact Or.inr (le_of_eq (Except.ok.inj hr'))

theorem jsonStructureExtractor_frame (et en : Bool)
    (outField : String) (incl : Bool) :
    OpFrame (JsonStructureExtractor.processH et en outField incl) := by
  intro h r
  simp only [JsonStructureExtractor.processH]
  by_cases hc : ((h.store r).isEmpty = true)
  · rw [if_pos hc]
    refine ⟨fun q hq => ?_, ?_, fun r' hr' => ?_⟩
    · exact Heap.alloc_fst_store_lt h _ q hq
    · simp [Heap.alloc]
    · exact Or.inr (le_of_eq (Except.ok.inj hr'))
  · rw [if_neg hc]
    by_cases hi : incl = true
    · rw [if_pos hi]
      refine ⟨fun q hq => ?_, ?_, fun r' hr' => ?_⟩
      · exact Heap.alloc_fst_store_lt h _ q hq
      · simp [Heap.alloc]
      · exact Or.inr (le_of_eq (Except.ok.inj hr'))
    · rw [if_neg hi]
      refine ⟨fun q hq => ?_, ?_, fun r' hr' => ?_⟩
      · exact Heap.alloc_fst_store_lt h _ q hq
      · simp [Heap.alloc]
      · exact Or.inr (le_of_eq (Except.ok.inj hr'))

theorem Pipeline.runOpsH_frame (ops : List OpH) (h : Heap) (r : Nat)
    (hops : ∀ op ∈ ops, OpFrame op) :
    (∀ q, q < h.next → ((Pipeline.runOpsH ops h r).1).store q = h.store q) ∧
    h.next ≤ ((Pipeline.runOpsH ops h r).1).next ∧
    (∀ r', (Pipeline.runOpsH ops h r).2 = .ok r' → r' = r ∨ h.next ≤ r') := by
  induction ops generalizing h r with
  | nil =>
      exact ⟨fun q hq => rfl, le_refl _,
        fun r' hr' => Or.inl (Except.ok.inj hr').symm⟩
  | cons op rest ih =>
      obtain ⟨ha, hb, hcl⟩ := hops op (List.mem_cons_self _ _) h r
      simp only [Pipeline.runOpsH]
      cases hres : op h r with
      | mk h1 res =>
          rw [hres] at ha hb hcl
          cases res with
          | ok r1 =>
              obtain ⟨iha, ihb, ihc⟩ :=
                ih h1 r1 fun o ho => hops o (List.mem_cons_of_mem _ ho)
              refine ⟨fun q hq => ?_, le_trans hb ihb, fun r' hr' => ?_⟩
              · rw [iha q (lt_of_lt_of_le hq hb), ha q hq]
              · rcases ihc r' hr' with h1eq | h1le
                · subst h1eq
                  exact hcl r' rfl
                · exact Or.inr (le_trans hb h1le)
          | error e =>
              exact ⟨ha, hb, fun r' hr' => by cases hr'⟩

theorem Pipeline.restoreH_store_ne (pv : List (String × JVal)) (h : Heap)
    (r q : Nat) (hq : q ≠ r) :
    (Pipeline.restoreH pv h r).store q = h.store q := by
  induction pv generalizing h with
  | nil => rfl
  | cons fv rest ih =>
      have hstep : Pipeline.restoreH (fv :: rest) h r =
          Pipeline.restoreH rest (h.setAt r (dictSet (h.store r) fv.1 fv.2)) r :=
        rfl
      rw [hstep, ih, Heap.setAt_store_ne _ _ _ _ hq]

theorem Pipeline.restoreH_store_self (pv : List (String × JVal)) (h : Heap)
    (r : Nat) (d0 : Record) (hst : h.store r = d0)
    (hpv : ∀ fv ∈ pv, dictLookup d0 fv.1 = some fv.2) :
    (Pipeline.restoreH pv h r).store r = d0 := by
  induction pv generalizing h with
  | nil => exact hst
  | cons fv rest ih =>
      have hstep : Pipeline.restoreH (fv :: rest) h r =
          Pipeline.restoreH rest (h.setAt r (dictSet (h.store r) fv.1 fv.2)) r :=
        rfl
      rw [hstep]
      apply ih
      · rw [Heap.setAt_store_self, hst,
          dictSet_self_of_lookup _ _ _ (hpv fv (List.mem_cons_self _ _))]
      · exact fun fv' h' => hpv fv' (List.mem_cons_of_mem _ h')

theorem Pipeline.passthroughOf_lookup (fields : List String) (d : Record) :
    ∀ fv ∈ Pipeline.passthroughOf fields d, dictLookup d fv.1 = some fv.2 := by
  intro fv hfv
  unfold Pipeline.passthroughOf at hfv
  rw [List.mem_filterMap] at hfv
  obtain ⟨f, hf, heq⟩ := hfv
  cases hdl : dictLookup d f with
  | none => rw [hdl] at heq; simp at heq
  | some v =>
      rw [hdl] at heq
      simp only [Option.map_some'] at heq
      cases heq
      simpa using hdl

/-- Claim C10: processing is by value — each operator of the repository
(`ModelInvoker`, `MultimodalInvoker`, `JsonStructureExtractor`) satisfies
the frame contract (it never writes through a pre-existing reference, so
the caller's record object is left unchanged), and `Pipeline.process`
built from any frame-respecting operators leaves the record object the
caller passed in unchanged, including through the passthrough-restoration
writes. -/
theorem processing_is_by_value :
    (∀ (pf rf : String) (sp : Option JVal)
        (call : List Message → Except PyErr String),
        OpFrame (ModelInvoker.processH pf rf sp call)) ∧
    (∀ (mf rf : String) (jl : String → Except PyErr JVal)
        (ivk : JVal → Except PyErr String),
        OpFrame (MultimodalInvoker.processH mf rf jl ivk)) ∧
    (∀ (et en : Bool) (outField : String) (incl : Bool),
        OpFrame (JsonStructureExtractor.processH et en outField incl)) ∧
    (∀ (fields : List String) (ops : List OpH) (h : Heap) (r : Nat),
        (∀ op ∈ ops, OpFrame op) → r < h.next →
        ((Pipeline.processH fields ops h r).1).store r = h.store r) := by
  refine ⟨modelInvoker_frame, multimodalInvoker_frame,
    jsonStructureExtractor_frame, ?_⟩
  intro fields ops h r hops hr
  obtain ⟨ha, hb, hcl⟩ := Pipeline.runOpsH_frame ops h r hops
  simp only [Pipeline.processH]
  cases hres : Pipeline.runOpsH ops h r with
  | mk h1 res =>
      rw [hres] at ha hb hcl
      cases res with
      | ok r1 =>
          rcases hcl r1 rfl with heq | hle
          · rw [heq]
            exact Pipeline.restoreH_store_self _ _ _ _ (ha r hr)
              (Pipeline.passthroughOf_lookup fields (h.store r))
          · rw [Pipeline.restoreH_store_ne _ _ _ _
              (Nat.ne_of_lt (lt_of_lt_of_le hr hle))]
            exact ha r hr
      | error e => exact ha r hr

/-- Witness for C10: a one-operator pipeline with a passthrough field, run
on a singleton heap; the caller's record object is unchanged afterwards. -/
theorem processing_is_by_value_witness :
    ((Pipeline.processH ["k"]
        [ModelInvoker.processH "p" "resp" none fun _ => .error (.exc "down")]
        ⟨fun _ => [("k", .str "v")], 1⟩ 0).1).store 0 = [("k", .str "v")] := by
  have h := processing_is_by_value
  have hmain := h.2.2.2 ["k"]
    [ModelInvoker.processH "p" "resp" none fun _ => .error (.exc "down")]
    ⟨fun _ => [("k", .str "v")], 1⟩ 0
    (by
      intro op hop
      simp only [List.mem_singleton] at hop
      subst hop
      exact h.1 "p" "resp" none fun _ => .error (.exc "down"))
    Nat.zero_lt_one
  simpa using hmain

theorem MultiThreadExecutor.reach_invariant (fields : List String)
    (ops : List Op) (inputs : List Record) (w : Nat)
    (s : MultiThreadExecutor.ExecState)
    (h : MultiThreadExecutor.Reach fields ops inputs w s) :
    s.results.length = inputs.length ∧
    (s.pending ++ s.running).Nodup ∧
    (∀ i ∈ s.pending ++ s.running, i < inputs.length) ∧
    s.running.length ≤ w ∧
    (∀ i : Nat, i < inputs.length → i ∉ s.pending → i ∉ s.running →
      s.results[i]? =
        some (some (Pipeline.process fields ops (inputs.getD i [])))) := by
  induction h with
  | refl =>
      simp only [MultiThreadExecutor.initState]
      refine ⟨List.length_replicate _ _, ?_, ?_, Nat.zero_le _, ?_⟩
      · rw [List.append_nil]
        exact List.nodup_range _
      · intro i hi
        rw [List.append_nil] at hi
        exact List.mem_range.mp hi
      · intro i hi hp _
        exact absurd (List.mem_range.mpr hi) hp
  | tail s t hreach hstep ih =>
      obtain ⟨ih1, ih2, ih3, ih4, ih5⟩ := ih
      cases hstep with
      | start i p hp hw =>
          rw [hp] at ih2 ih3
          rw [List.cons_append] at ih2 ih3
          refine ⟨ih1, ?_, ?_, Nat.succ_le_of_lt hw, ?_⟩
          · exact List.perm_middle.symm.nodup ih2
          · intro j hj
            exact ih3 j (List.perm_middle.mem_iff.mp hj)
          · intro j hj hjp hjr
            rw [List.mem_cons] at hjr
            push_neg at hjr
            refine ih5 j hj ?_ hjr.2
            rw [hp, List.mem_cons]
            push_neg
            exact ⟨hjr.1, hjp⟩
      | fin i hi =>
          have hilen : i < inputs.length :=
            ih3 i (List.mem_append.mpr (Or.inr hi))
          refine ⟨?_, ?_, ?_, ?_, ?_⟩
          · rw [List.length_set]
            exact ih1
          · exact (((List.erase_sublist i s.running).append_left
              s.pending)).nodup ih2
          · intro j hj
            rcases List.mem_append.mp hj with hjp | hje
            · exact ih3 j (List.mem_append.mpr (Or.inl hjp))
            · exact ih3 j
                (List.mem_append.mpr (Or.inr (List.mem_of_mem_erase hje)))
          · exact le_trans (List.Sublist.length_le
              (List.erase_sublist i s.running)) ih4
          · intro j hj hjp hje
            by_cases hje2 : j = i
            · subst hje2
              rw [List.getElem?_set_self (by rw [ih1]; exact hilen)]
            · rw [List.getElem?_set_ne (fun hh => hje2 hh.symm)]
              refine ih5 j hj hjp fun hjr => hje ?_
              exact (List.mem_erase_of_ne hje2).mpr hjr

/-- Claim C8: every pool state the concurrent executor can reach runs at
most `W` pipeline invocations at once, and when `execute_all` finishes
(nothing pending, nothing running) the result list is index-aligned with
the input list regardless of the completion order taken: it equals the
input list mapped through `pipeline.process`, so it has the input's length
and its i-th element is the i-th record's result. -/
theorem MultiThreadExecutor.execute_all_aligned (fields : List String)
    (ops : List Op) (inputs : List Record) (w : Nat)
    (s : MultiThreadExecutor.ExecState)
    (h : MultiThreadExecutor.Reach fields ops inputs w s) :
    s.running.length ≤ w ∧
    (s.pending = [] → s.running = [] →
      s.results = inputs.map fun d => some (Pipeline.process fields ops d)) := by
  obtain ⟨ih1, _, _, ih4, ih5⟩ :=
    MultiThreadExecutor.reach_invariant fields ops inputs w s h
  refine ⟨ih4, ?_⟩
  intro hpend hrun
  apply List.ext_getElem?_iff.mpr
  intro n
  by_cases hn : n < inputs.length
  · rw [ih5 n hn (by rw [hpend]; exact List.not_mem_nil n)
      (by rw [hrun]; exact List.not_mem_nil n)]
    rw [List.getElem?_map, List.getElem?_eq_getElem hn]
    simp only [Option.map_some']
    rw [List.getD_eq_getElem inputs [] hn]
  · push_neg at hn
    rw [List.getElem?_eq_none_iff.mpr (by rw [ih1]; exact hn),
      List.getElem?_eq_none_iff.mpr (by rw [List.length_map]; exact hn)]

/-- Witness for C8: a one-record run driven to completion by an explicit
schedule (start, then finish); the final result list equals the mapped
pipeline results. -/
theorem MultiThreadExecutor.execute_all_aligned_witness :
    ([some (Except.ok (JVal.obj [("a", JVal.null)]))] :
        List (Option (Except PyErr JVal))) =
      [[(("a" : String), JVal.null)]].map
        (fun d => some (Pipeline.process [] [] d)) := by
  have h0 : MultiThreadExecutor.Reach [] [] [[(("a" : String), JVal.null)]] 1
      (MultiThreadExecutor.initState [[(("a" : String), JVal.null)]]) :=
    MultiThreadExecutor.Reach.refl
  have h1 := MultiThreadExecutor.Reach.tail _ _ h0
    (MultiThreadExecutor.ExecStep.start _ 0 [] rfl (by decide))
  have h2 := MultiThreadExecutor.Reach.tail _ _ h1
    (MultiThreadExecutor.ExecStep.fin _ 0 (by decide))
  exact ((MultiThreadExecutor.execute_all_aligned [] []
    [[(("a" : String), JVal.null)]] 1 _ h2).2 rfl rfl).symm
